import Mathlib

/-!
# Verification of the `heap-go` generic binary heap

Shallow embedding of `heap.go` (package `heap`, repository mier85/heap-go) and of
the parts of Go's standard `container/heap` package that it delegates to
(`heap.Push`, `heap.Pop`, `heap.Remove`, `up`, `down`).

Modelling conventions:

* An element of the heap is a value of an arbitrary type `α` with decidable
  equality; it models the `reflect.Value` of the pointer stored in
  `Heap.objects`.  Equality on `α` models Go identity (pointer equality),
  which is also the key equality of the `lookup` map.
* The comparison function `cmp : α → α → Bool` models the stored `cmpFn`;
  it is fixed at construction, so it is passed as a parameter.
* Go maps are modelled as association lists with last-write-wins update
  (`alSet`) and comma-ok reads (`alGet?`).
* The mutable `IndexMixin.index` field of each element (written through
  `SetIndex`, zero-valued on creation by `NewElem`) lives in the `selfIdx`
  association list; a missing key reads as the Go zero value `0`.
* Go run-time panics (out-of-range slice accesses, failed type checks) are
  modelled as `Except.error msg` with the corresponding message.  Every
  guard appears exactly where the first faulting access happens in the Go
  code; the typed front-end (`putT`, `getT`, `peekT`) distinguishes panics
  from `error` values returned by `NewHeap` via the `GoAbort` type.
-/

namespace HeapGo

/-- Comma-ok read `v, ok := m[k]` of a Go map modelled as an association list. -/
def alGet? {α β : Type} [DecidableEq α] : List (α × β) → α → Option β
  | [], _ => none
  | (k', v') :: rest, k => if k' = k then some v' else alGet? rest k

/-- Assignment `m[k] = v` of a Go map modelled as an association list. -/
def alSet {α β : Type} [DecidableEq α] : List (α × β) → α → β → List (α × β)
  | [], k, v => [(k, v)]
  | (k', v') :: rest, k, v => if k' = k then (k, v) :: rest else (k', v') :: alSet rest k v

/--
The state of a `Heap` value (heap.go, lines 26-35):
`objects` is the element array, `lookup` the identity→position map,
`selfIdx` holds the `IndexMixin.index` field of every element ever created
(Go zero value `0` when absent), `indexer` the cached result of the
`Implements(Indexer)` check made at construction.
-/
structure GHeap (α : Type) where
  objects : List α
  lookup : List (α × Nat)
  selfIdx : List (α × Nat)
  indexer : Bool
deriving Repr, DecidableEq

variable {α : Type} [DecidableEq α] [Inhabited α]

/-- `l[k]`: array read at position `k`.  All reads are either in bounds or
guarded by an explicit emptiness/bounds check at the call site, mirroring the
place where the Go code would panic. -/
def nodeAt (l : List α) (k : Nat) : α := l.getD k default

/-- The parallel assignment `h.objects[i], h.objects[j] = h.objects[j], h.objects[i]`. -/
def lswap (l : List α) (i j : Nat) : List α := (l.set i (nodeAt l j)).set j (nodeAt l i)

/-- `GetIndex` of an element: its `IndexMixin.index` field, zero-valued at creation. -/
def selfIdxOf (s : GHeap α) (x : α) : Nat := (alGet? s.selfIdx x).getD 0

/-- `Heap.Swap` (heap.go, lines 96-104): when `indexer` is set, `SetIndex(j)` on
`objects[i]` and `SetIndex(i)` on `objects[j]`; then the two `lookup` writes;
then the array swap. -/
def swapGo (s : GHeap α) (i j : Nat) : GHeap α :=
  let oi := nodeAt s.objects i
  let oj := nodeAt s.objects j
  { objects := lswap s.objects i j
    lookup := alSet (alSet s.lookup oi j) oj i
    selfIdx := if s.indexer then alSet (alSet s.selfIdx oi j) oj i else s.selfIdx
    indexer := s.indexer }

/-- `Heap.Less` (heap.go, lines 92-94): calls `cmpFn` on the two stored elements. -/
def lessGo (cmp : α → α → Bool) (s : GHeap α) (i j : Nat) : Bool :=
  cmp (nodeAt s.objects i) (nodeAt s.objects j)

/-- `Heap.Push` (heap.go, lines 110-117) after its type check (which passes for
every element of the witness type): record the position of the new element in
`lookup`, then append it.  Note: `Push` does not call `SetIndex`. -/
def pushGo (s : GHeap α) (x : α) : GHeap α :=
  { s with
    lookup := alSet s.lookup x s.objects.length
    objects := s.objects ++ [x] }

/-- `Heap.Pop` (heap.go, lines 119-124): read the last element and truncate the
array.  No `lookup` entry is deleted.  All `container/heap` call sites reach it
with a nonempty array (the empty case panics earlier, inside `Swap`). -/
def popGo (s : GHeap α) : GHeap α × α :=
  ({ s with objects := s.objects.dropLast }, nodeAt s.objects (s.objects.length - 1))

/-- `container/heap`'s `up(h, j)`: swap `j` with its parent `(j-1)/2` while the
element at `j` precedes it.  (In Go, `(0-1)/2 == 0` by truncated division, the
same value as Nat subtraction/division gives here.) -/
def upGo (cmp : α → α → Bool) (s : GHeap α) (j : Nat) : GHeap α :=
  let i := (j - 1) / 2
  if i = j ∨ ¬ lessGo cmp s j i then s
  else upGo cmp (swapGo s i j) i
termination_by j
decreasing_by
  have hj : j ≠ 0 := by
    intro h0; subst h0; simp at *
  calc (j - 1) / 2 ≤ j - 1 := Nat.div_le_self _ _
    _ < j := by omega

/-- The child selection of `container/heap`'s `down`: `j = j1` (left child
`2*i+1`), replaced by `j2 = j1+1` (right child) when it exists (`j2 < n`) and
precedes the left child. -/
def childSel (cmp : α → α → Bool) (s : GHeap α) (n i : Nat) : Nat :=
  if 2*i+2 < n ∧ lessGo cmp s (2*i+2) (2*i+1) then 2*i+2 else 2*i+1

/-- The loop of `container/heap`'s `down(h, i0, n)`, returning the final value
of `i`.  (`j1 < 0` can only arise in Go from `int` overflow and cannot occur at
the sizes reachable here; with `Nat` arithmetic it is vacuous.) -/
def downGo (cmp : α → α → Bool) (n : Nat) (s : GHeap α) (i : Nat) : GHeap α × Nat :=
  if 2*i+1 ≥ n then (s, i)
  else
    let j := childSel cmp s n i
    if ¬ lessGo cmp s j i then (s, i)
    else downGo cmp n (swapGo s i j) j
termination_by n - i
decreasing_by
  unfold childSel
  split <;> omega

/-- `container/heap`'s `heap.Push`: `h.Push(x); up(h, h.Len()-1)`.  This is the
body of `Heap.Put` (heap.go, lines 126-128). -/
def coPushGo (cmp : α → α → Bool) (s : GHeap α) (x : α) : GHeap α :=
  let s1 := pushGo s x
  upGo cmp s1 (s1.objects.length - 1)

/-- `container/heap`'s `heap.Pop`: `n := h.Len()-1; h.Swap(0, n); down(h, 0, n);
return h.Pop()`.  On an empty heap `n = -1` and `Swap(0, -1)` reads
`h.objects[0]`, which panics with an out-of-range error. -/
def coPopGo (cmp : α → α → Bool) (s : GHeap α) : Except String (GHeap α × α) :=
  if s.objects.length = 0 then .error "index out of range"
  else
    let n := s.objects.length - 1
    let s1 := swapGo s 0 n
    let s2 := (downGo cmp n s1 0).1
    .ok (popGo s2)

/-- `container/heap`'s `heap.Remove(h, i)`: `n := h.Len()-1; if n != i
{ h.Swap(i, n); if !down(h, i, n) { up(h, i) } }; return h.Pop()`.  When the
heap is empty (`n = -1 ≠ i`) or `i > n`, `Swap(i, n)` reads `h.objects[i]` out
of range and panics. -/
def coRemoveGo (cmp : α → α → Bool) (s : GHeap α) (i : Nat) : Except String (GHeap α × α) :=
  if s.objects.length = 0 then .error "index out of range"
  else
    let n := s.objects.length - 1
    if n = i then .ok (popGo s)
    else if n < i then .error "index out of range"
    else
      let s1 := swapGo s i n
      let d := downGo cmp n s1 i
      let s3 := if i < d.2 then d.1 else upGo cmp d.1 i
      .ok (popGo s3)

/-- `Heap.Get` (heap.go, lines 130-136) after its type check: `container/heap`
`Pop`, then the popped element's pointed-to value is copied through the
caller's out pointer; the returned `α` is the element whose value is copied.
The out pointer itself never enters the heap state. -/
def getGo (cmp : α → α → Bool) (s : GHeap α) : Except String (GHeap α × α) :=
  coPopGo cmp s

/-- `Heap.Peek` (heap.go, lines 138-144) after its type check: reads
`h.objects[0]` (panicking when empty) and copies its value out; no mutation. -/
def peekGo (s : GHeap α) : Except String α :=
  if s.objects.length = 0 then .error "index out of range"
  else .ok (nodeAt s.objects 0)

/-- `Heap.DeleteElem` (heap.go, lines 146-154): look the element up in the
`lookup` map; absent keys yield `false`; otherwise `container/heap`'s `Remove`
runs at the recorded index and the function returns `false` on that path too. -/
def deleteElemGo (cmp : α → α → Bool) (s : GHeap α) (x : α) : Except String (GHeap α × Bool) :=
  match alGet? s.lookup x with
  | none => .ok (s, false)
  | some index => (coRemoveGo cmp s index).map (fun p => (p.1, false))

/-- The state produced by a successful `NewHeap` (heap.go, lines 37-47):
empty array and empty map; `MustHeap` additionally runs `heap.Init`, a no-op
on an empty heap (its loop starts below zero). -/
def emptyGH (ix : Bool) : GHeap α := ⟨[], [], [], ix⟩

/-- One public mutating operation of the heap surface. -/
inductive HOp (α : Type) where
  | put (x : α)
  | get
  | del (x : α)
deriving Repr, DecidableEq

/-- Run one public operation (with passing type checks), keeping the state. -/
def stepGo (cmp : α → α → Bool) (s : GHeap α) : HOp α → Except String (GHeap α)
  | .put x => .ok (coPushGo cmp s x)
  | .get => (getGo cmp s).map (fun p => p.1)
  | .del x => (deleteElemGo cmp s x).map (fun p => p.1)

/-- Run a list of public operations from a given state, stopping at a panic. -/
def runGo (cmp : α → α → Bool) (s : GHeap α) : List (HOp α) → Except String (GHeap α)
  | [] => .ok s
  | op :: rest =>
    match stepGo cmp s op with
    | .error e => .error e
    | .ok s' => runGo cmp s' rest

/-! ### The reflection-typed front end

`NewHeap` inspects the supplied comparison function through `reflect`;
`Push`, `Get` and `Peek` compare `reflect.TypeOf` of their argument with the
stored witness type.  `GoType` models the fragment of `reflect.Type` that
`checkAndSetFn` consults: the kind, the in/out arities of a function type, the
first two parameter types and the first result type, and whether a pointer
type implements the `Indexer` interface. -/

/-- The fragment of a `reflect.Type` inspected by `heap.go`. -/
inductive GoType where
  /-- a pointer type; `impl` records whether it implements `Indexer` -/
  | ptrT (tag : Nat) (impl : Bool)
  /-- the type `bool` -/
  | boolT
  /-- a function type with `numIn`/`numOut` parameters and results; `in0`,
  `in1`, `out0` are the leading parameter/result types (consulted only when
  the arities make them exist) -/
  | funcT (numIn numOut : Nat) (in0 in1 out0 : GoType)
  /-- any other type -/
  | otherT (tag : Nat)
deriving Repr, DecidableEq

/-- `reflect.Kind`, restricted to the kinds `heap.go` distinguishes. -/
inductive GoKind where
  | kPtr | kBool | kFunc | kOther
deriving Repr, DecidableEq

/-- `Type.Kind()`. -/
def GoType.kind : GoType → GoKind
  | .ptrT _ _ => .kPtr
  | .boolT => .kBool
  | .funcT _ _ _ _ _ => .kFunc
  | .otherT _ => .kOther

/-- `Type.NumIn()` (only called on function types). -/
def GoType.numInOf : GoType → Nat
  | .funcT n _ _ _ _ => n
  | _ => 0

/-- `Type.NumOut()` (only called on function types). -/
def GoType.numOutOf : GoType → Nat
  | .funcT _ n _ _ _ => n
  | _ => 0

/-- `Type.In(0)` (only called when `NumIn() == 2`). -/
def GoType.arg0 : GoType → GoType
  | .funcT _ _ a _ _ => a
  | _ => .otherT 0

/-- `Type.In(1)` (only called when `NumIn() == 2`). -/
def GoType.arg1 : GoType → GoType
  | .funcT _ _ _ b _ => b
  | _ => .otherT 0

/-- `Type.Out(0)` (only called when `NumOut() == 1`). -/
def GoType.res0 : GoType → GoType
  | .funcT _ _ _ _ r => r
  | _ => .otherT 0

/-- `Type.Implements(Indexer)`, consulted on the element (pointer) type. -/
def GoType.implIndexer : GoType → Bool
  | .ptrT _ b => b
  | _ => false

/-- The result of an aborted Go call: either a run-time panic or an `error`
value returned to the caller. -/
inductive GoAbort where
  | goPanic (msg : String)
  | goError (msg : String)
deriving Repr, DecidableEq

/-- Whether an optional abort is an `error` result (as opposed to a panic). -/
def abortIsError : Option GoAbort → Bool
  | some (.goError _) => true
  | _ => false

/-- The configuration a successful `checkAndSetFn` leaves in the heap:
the witness element type and the cached `Indexer` capability flag. -/
structure HeapCfg where
  dataType : GoType
  indexer : Bool
deriving Repr, DecidableEq

/-- `Heap.checkAndSetFn` (heap.go, lines 58-90): the shape validation of the
comparison function, with the source's check order and error messages. -/
def checkAndSetFn (t : GoType) : Except String HeapCfg :=
  if t.kind ≠ .kFunc then .error "not a function"
  else if t.numOutOf ≠ 1 then .error "invalid amount of return params"
  else if t.res0.kind ≠ .kBool then .error "return value must be bool"
  else if t.numInOf ≠ 2 then .error "expected exactly two parameters, only one gotten"
  else if t.arg0 ≠ t.arg1 then .error "both input parameters of the function must be of the same type"
  else if t.arg0.kind ≠ .kPtr then .error "elems must have a pointer receiver"
  else .ok ⟨t.arg0, t.arg0.implIndexer⟩

/-- `NewHeap` (heap.go, lines 37-47).  The argument is the
`reflect.TypeOf(compareFn)` of the supplied value: `none` models a nil
`interface` argument, for which `reflect.TypeOf` returns nil and the
subsequent `Kind()` call panics. -/
def newHeapGo (compareFn : Option GoType) : Except GoAbort HeapCfg :=
  match compareFn with
  | none => .error (.goPanic "invalid memory address or nil pointer dereference")
  | some t =>
    match checkAndSetFn t with
    | .error msg => .error (.goError msg)
    | .ok cfg => .ok cfg

/-- A typed heap: the core state plus the element witness type fixed by
construction. -/
structure THeap (α : Type) where
  core : GHeap α
  dataType : GoType
deriving Repr, DecidableEq

/-- `Heap.Put`/`Heap.Push` boundary (heap.go, lines 110-117 and 126-128):
`argTy` is `reflect.TypeOf` of the inserted value.  The type check precedes
every mutation; on mismatch the call panics and the state is unchanged. -/
def putT (cmp : α → α → Bool) (h : THeap α) (argTy : GoType) (x : α) :
    Option GoAbort × THeap α :=
  if argTy ≠ h.dataType then (some (.goPanic "tried to put invalid type"), h)
  else (none, { h with core := coPushGo cmp h.core x })

/-- `Heap.Get` boundary (heap.go, lines 130-136): type check on the out
pointer first, then `container/heap` `Pop`; the copy through the out pointer
does not touch the heap state.  A panic leaves the state unchanged (the empty
case faults on its first read, before any write). -/
def getT (cmp : α → α → Bool) (h : THeap α) (argTy : GoType) :
    Option GoAbort × THeap α × Option α :=
  if argTy ≠ h.dataType then (some (.goPanic "bad target type"), h, none)
  else
    match getGo cmp h.core with
    | .error msg => (some (.goPanic msg), h, none)
    | .ok p => (none, { h with core := p.1 }, some p.2)

/-- `Heap.Peek` boundary (heap.go, lines 138-144): type check, then a read of
`objects[0]`; never mutates. -/
def peekT (h : THeap α) (argTy : GoType) :
    Option GoAbort × THeap α × Option α :=
  if argTy ≠ h.dataType then (some (.goPanic "bad target type"), h, none)
  else
    match peekGo h.core with
    | .error msg => (some (.goPanic msg), h, none)
    | .ok v => (none, h, some v)

/-- The shape condition of claim C9, written from the spec's words: the policy
is wrong-shaped when it is not a function, has the wrong arity, a non-boolean
or a non-single result, two different argument types, or a non-pointer
argument type. -/
def specShapeWrong (t : GoType) : Prop :=
  t.kind ≠ .kFunc ∨ t.numInOf ≠ 2 ∨ t.numOutOf ≠ 1 ∨
    t.res0.kind ≠ .kBool ∨ t.arg0 ≠ t.arg1 ∨ t.arg0.kind ≠ .kPtr

/-- The heap edge at a non-root position `k`: the element stored at `k` does
not precede its parent at `(k-1)/2` under the configured comparison. -/
def edgeAt (cmp : α → α → Bool) (l : List α) (k : Nat) : Prop :=
  cmp (nodeAt l k) (nodeAt l ((k-1)/2)) = false

/-- Binary-heap order on the first `n` positions: no non-root element precedes
its parent `(k-1)/2` under the configured comparison. -/
def heapInvOn (cmp : α → α → Bool) (l : List α) (n : Nat) : Prop :=
  ∀ k, 0 < k → k < n → edgeAt cmp l k

/-- Binary-heap order on the whole array. -/
def heapInv (cmp : α → α → Bool) (l : List α) : Prop :=
  heapInvOn cmp l l.length

/-- Position-index consistency for resident elements: the `lookup` entry of the
element stored at any array position is exactly that position. -/
def lookupInv (s : GHeap α) : Prop :=
  ∀ k, k < s.objects.length → alGet? s.lookup (nodeAt s.objects k) = some k

/-- States reachable through the public operation surface, starting from a
freshly constructed heap.  A `put` inserts an element the caller owns, i.e.
one not currently resident (while resident, an element is owned by the heap). -/
inductive ReachGo (cmp : α → α → Bool) (ix : Bool) : GHeap α → Prop where
  | init : ReachGo cmp ix (emptyGH ix)
  | put {s s' : GHeap α} {x : α} : ReachGo cmp ix s → x ∉ s.objects →
      stepGo cmp s (.put x) = .ok s' → ReachGo cmp ix s'
  | get {s s' : GHeap α} : ReachGo cmp ix s →
      stepGo cmp s .get = .ok s' → ReachGo cmp ix s'
  | del {s s' : GHeap α} {x : α} : ReachGo cmp ix s →
      stepGo cmp s (.del x) = .ok s' → ReachGo cmp ix s'

/-! ### Concrete executions

`NewMaxHeap` (heap.go, lines 168-172) fixes the comparison
`func(i, j *IntElem) bool { return i.data > j.data }` over `*IntElem`, a
pointer type implementing `Indexer` (so `indexer` is set).  The test elements
below carry pairwise distinct `data` values, so the value also serves as the
identity of the element. -/

/-- The `NewMaxHeap` ordering on the `data` values. -/
def maxCmp : Nat → Nat → Bool := fun a b => b < a

/-- The state of a freshly built `NewMaxHeap()` (after `heap.Init`, a no-op on
an empty heap). -/
def maxHeap0 : GHeap Nat := emptyGH true

/-- `k` successive `Get` calls, collecting the extracted values. -/
def drainGo (cmp : α → α → Bool) : Nat → GHeap α → Except String (List α × GHeap α)
  | 0, s => .ok ([], s)
  | k + 1, s =>
    match getGo cmp s with
    | .error e => .error e
    | .ok p => (drainGo cmp k p.1).map (fun q => (p.2 :: q.1, q.2))

/-- The max-heap holding the single element `5`. -/
def oneElemHeap : GHeap Nat := coPushGo maxCmp maxHeap0 5

/-- The state left by `DeleteElem(5)` on `oneElemHeap`: the element is gone
from the array but its `lookup` entry survives (`Pop` deletes nothing). -/
def afterDelete5 : GHeap Nat := ⟨[], [(5, 0)], [], true⟩

/-- The state left by `Get` on `oneElemHeap`: the array is empty but the
`lookup` entry of the extracted `5` survives (its `selfIdx` entry was written
by the `Swap(0, 0)` inside `container/heap`'s `Pop`). -/
def afterGet5 : GHeap Nat := ⟨[], [(5, 0)], [(5, 0)], true⟩

/-- Claim C1 (code bug): on the heap holding exactly the element `5`,
`DeleteElem(5)` removes the element but returns `false` (the claim says
`true`); the surviving stale `lookup` entry makes the second `DeleteElem(5)`
panic inside `Swap(0, -1)` instead of returning `false`; only the
never-inserted case (`DeleteElem(6)`) behaves as claimed. -/
theorem C1_delete_returns_false_then_panics :
    deleteElemGo maxCmp oneElemHeap 5 = .ok (afterDelete5, false) ∧
    afterDelete5.objects = [] ∧
    deleteElemGo maxCmp afterDelete5 5 = .error "index out of range" ∧
    deleteElemGo maxCmp oneElemHeap 6 = .ok (oneElemHeap, false) := by
  simp [deleteElemGo, coRemoveGo, coPushGo, upGo, downGo, childSel, pushGo, popGo, swapGo,
    lswap, nodeAt, lessGo, alGet?, alSet, maxCmp, maxHeap0, emptyGH, oneElemHeap,
    afterDelete5, Except.map]

/-- Claim C3 (code bug): extracting the only element `5` via `Get` leaves the
array empty yet keeps the `lookup` key `5` (pointing at position `0`); the
claim says the entry is removed when the element leaves the heap. -/
theorem C3_lookup_entry_survives_extraction :
    getGo maxCmp oneElemHeap = .ok (afterGet5, 5) ∧
    afterGet5.objects = [] ∧
    alGet? afterGet5.lookup 5 = some 0 := by
  simp [getGo, coPopGo, coPushGo, upGo, downGo, childSel, pushGo, popGo, swapGo,
    lswap, nodeAt, lessGo, alGet?, alSet, maxCmp, maxHeap0, emptyGH, oneElemHeap,
    afterGet5]

/-- The state reached from a fresh max-heap by `Put 5; Put 3; Get; Put 4`:
the stale entry of the extracted `5` and the live entry of `3` both point at
array position `1`. -/
def collideState : GHeap Nat :=
  ⟨[4, 3], [(5, 1), (3, 1), (4, 0)], [(5, 1), (3, 1), (4, 0)], true⟩

/-- Claim C2, counterexample: after the public sequence
`Put 5; Put 3; Get; Put 4` the Position Index holds two entries (keys `5` and
`3`) that both map to array position `1` (a valid position of the 2-element
array), violating the claimed no-two-entries-per-position property. -/
theorem C2_cex_two_entries_same_position :
    runGo maxCmp maxHeap0 [.put 5, .put 3, .get, .put 4] = .ok collideState ∧
    alGet? collideState.lookup 5 = some 1 ∧
    alGet? collideState.lookup 3 = some 1 ∧
    collideState.objects.length = 2 := by
  simp [runGo, stepGo, getGo, coPopGo, coPushGo, upGo, downGo, childSel, pushGo, popGo,
    swapGo, lswap, nodeAt, lessGo, alGet?, alSet, maxCmp, maxHeap0, emptyGH,
    collideState, Except.map]

/-- The state reached from a fresh max-heap by `Put 9; Put 5`: the new element
`5` sits at position `1` without having been swapped. -/
def noSwapState : GHeap Nat := coPushGo maxCmp (coPushGo maxCmp maxHeap0 9) 5

/-- Claim C4, counterexample: on an `Indexer`-capable heap, after
`Put 9; Put 5` the just-inserted element `5` is resident at position `1` with
Position Index entry `1`, but its self-reported position (`GetIndex`) is still
the initial `0`, because `Push` records the position only in the map and
`Swap` never ran for it. -/
theorem C4_cex_fresh_element_selfreport_stale :
    noSwapState.indexer = true ∧
    nodeAt noSwapState.objects 1 = 5 ∧
    alGet? noSwapState.lookup 5 = some 1 ∧
    selfIdxOf noSwapState 5 = 0 := by
  simp [noSwapState, coPushGo, upGo, pushGo, swapGo, lswap, nodeAt, lessGo,
    alGet?, alSet, maxCmp, maxHeap0, emptyGH, selfIdxOf]

/-- The witness type of `NewMaxHeap`: `*IntElem`, a pointer type implementing
`Indexer`. -/
def tIntElem : GoType := .ptrT 0 true

/-- A freshly constructed typed max-heap. -/
def emptyTHeap : THeap Nat := ⟨maxHeap0, tIntElem⟩

/-- Claim C7, counterexample: `Peek` and `Get` on the freshly constructed
(empty) heap abort with an index-out-of-range runtime panic — not with any
error value ("EmptyError" does not exist in the code). -/
theorem C7_cex_empty_heap_panics :
    peekT emptyTHeap tIntElem = (some (.goPanic "index out of range"), emptyTHeap, none) ∧
    getT maxCmp emptyTHeap tIntElem = (some (.goPanic "index out of range"), emptyTHeap, none) ∧
    abortIsError (peekT emptyTHeap tIntElem).1 = false ∧
    abortIsError (getT maxCmp emptyTHeap tIntElem).1 = false := by
  simp [peekT, getT, peekGo, getGo, coPopGo, abortIsError, emptyTHeap, maxHeap0,
    emptyGH, tIntElem]

/-- A typed max-heap holding the element `5`. -/
def oneElemTHeap : THeap Nat := ⟨oneElemHeap, tIntElem⟩

/-- A pointer type different from the witness type `*IntElem`. -/
def tOtherPtr : GoType := .ptrT 1 false

/-- Claim C8, counterexample: `Put`, `Peek` and `Get` called with an argument
whose type differs from the witness type abort with a runtime panic — not
with any error value ("TypeMismatchError" does not exist in the code) — and
leave the state unchanged. -/
theorem C8_cex_type_mismatch_panics :
    putT maxCmp oneElemTHeap tOtherPtr 3 =
      (some (.goPanic "tried to put invalid type"), oneElemTHeap) ∧
    peekT oneElemTHeap tOtherPtr = (some (.goPanic "bad target type"), oneElemTHeap, none) ∧
    getT maxCmp oneElemTHeap tOtherPtr = (some (.goPanic "bad target type"), oneElemTHeap, none) ∧
    abortIsError (putT maxCmp oneElemTHeap tOtherPtr 3).1 = false := by
  simp [putT, peekT, getT, abortIsError, oneElemTHeap, tIntElem, tOtherPtr]

/-- Claim C9, counterexample: `NewHeap(nil)` supplies a policy that is not a
function, so by the claim it should yield a configuration error; instead
`reflect.TypeOf(nil)` is nil and the `Kind()` call panics. -/
theorem C9_cex_nil_policy_panics :
    newHeapGo none = .error (.goPanic "invalid memory address or nil pointer dereference") ∧
    abortIsError (some (.goPanic "invalid memory address or nil pointer dereference")) = false := by
  simp [newHeapGo, abortIsError]

/-- The max-heap loaded with the elements 5, 1, 9, 3, 7 via `Put`. -/
def loadedHeap : GHeap Nat :=
  coPushGo maxCmp (coPushGo maxCmp (coPushGo maxCmp
    (coPushGo maxCmp (coPushGo maxCmp maxHeap0 5) 1) 9) 3) 7

set_option maxHeartbeats 1600000 in
set_option maxRecDepth 4000 in
/-- Claim C6 (confirmed): five successive `Get` calls on the max-heap loaded
with 5, 1, 9, 3, 7 deliver exactly 9, 7, 5, 3, 1 and leave the array empty. -/
theorem C6_extraction_order :
    (drainGo maxCmp 5 loadedHeap).toOption.map (fun p => (p.1, p.2.objects)) =
      some ([9, 7, 5, 3, 1], []) := by
  simp [drainGo, getGo, coPopGo, coPushGo, upGo, downGo, childSel, pushGo, popGo,
    swapGo, lswap, nodeAt, lessGo, alGet?, alSet, maxCmp, maxHeap0, emptyGH,
    loadedHeap, Except.map, Except.toOption]

/-! ### Basic facts about array reads, writes, swaps and the map model -/

theorem nodeAt_append_lt (l : List α) (x : α) (k : Nat) (h : k < l.length) :
    nodeAt (l ++ [x]) k = nodeAt l k := by
  unfold nodeAt
  induction l generalizing k with
  | nil => simp at h
  | cons a t ih =>
    cases k with
    | zero => simp
    | succ k' => simpa using ih k' (by simpa using h)

theorem nodeAt_append_self (l : List α) (x : α) :
    nodeAt (l ++ [x]) l.length = x := by
  unfold nodeAt
  induction l with
  | nil => simp
  | cons a t ih => simpa using ih

theorem nodeAt_set_eq (l : List α) (i : Nat) (x : α) (h : i < l.length) :
    nodeAt (l.set i x) i = x := by
  unfold nodeAt
  induction l generalizing i with
  | nil => simp at h
  | cons a t ih =>
    cases i with
    | zero => simp
    | succ i' => simpa using ih i' (by simpa using h)

theorem nodeAt_set_ne (l : List α) (i k : Nat) (x : α) (h : i ≠ k) :
    nodeAt (l.set i x) k = nodeAt l k := by
  unfold nodeAt
  induction l generalizing i k with
  | nil => simp
  | cons a t ih =>
    cases i with
    | zero => cases k with
      | zero => exact absurd rfl h
      | succ k' => simp
    | succ i' =>
      cases k with
      | zero => simp
      | succ k' => simpa using ih i' k' (by omega)

theorem nodeAt_mem (l : List α) (k : Nat) (h : k < l.length) : nodeAt l k ∈ l := by
  unfold nodeAt
  induction l generalizing k with
  | nil => simp at h
  | cons a t ih =>
    cases k with
    | zero => simp
    | succ k' => simpa using Or.inr (ih k' (by simpa using h))

theorem mem_of_mem_set (l : List α) (i : Nat) (x y : α) (h : y ∈ l.set i x) :
    y = x ∨ y ∈ l := by
  induction l generalizing i with
  | nil => simp at h
  | cons a t ih =>
    cases i with
    | zero =>
      rcases List.mem_cons.1 h with h' | h'
      · exact Or.inl h'
      · exact Or.inr (List.mem_cons.2 (Or.inr h'))
    | succ i' =>
      rcases List.mem_cons.1 h with h' | h'
      · exact Or.inr (List.mem_cons.2 (Or.inl h'))
      · rcases ih i' h' with h'' | h''
        · exact Or.inl h''
        · exact Or.inr (List.mem_cons.2 (Or.inr h''))

theorem mem_of_mem_dropLast (l : List α) (y : α) (h : y ∈ l.dropLast) : y ∈ l := by
  induction l with
  | nil => simp at h
  | cons a t ih =>
    cases t with
    | nil => simp at h
    | cons b u =>
      rcases List.mem_cons.1 h with h' | h'
      · exact List.mem_cons.2 (Or.inl h')
      · exact List.mem_cons.2 (Or.inr (ih h'))

theorem nodeAt_dropLast (l : List α) (k : Nat) (h : k + 1 < l.length) :
    nodeAt l.dropLast k = nodeAt l k := by
  unfold nodeAt
  induction l generalizing k with
  | nil => simp at h
  | cons a t ih =>
    cases t with
    | nil => simp at h
    | cons b u =>
      cases k with
      | zero => simp
      | succ k' => simpa using ih k' (by simpa using h)

theorem length_lswap (l : List α) (i j : Nat) : (lswap l i j).length = l.length := by
  simp [lswap]

theorem nodeAt_lswap (l : List α) (i j k : Nat) (hi : i < l.length) (hj : j < l.length) :
    nodeAt (lswap l i j) k =
      if k = j then nodeAt l i else if k = i then nodeAt l j else nodeAt l k := by
  unfold lswap
  by_cases hkj : k = j
  · subst hkj
    simp only [if_pos rfl]
    exact nodeAt_set_eq _ _ _ (by simpa using hj)
  · rw [if_neg hkj, nodeAt_set_ne _ _ _ _ (fun h => hkj h.symm)]
    by_cases hki : k = i
    · subst hki
      rw [if_pos rfl]
      exact nodeAt_set_eq _ _ _ hi
    · rw [if_neg hki, nodeAt_set_ne _ _ _ _ (fun h => hki h.symm)]

theorem mem_of_mem_lswap (l : List α) (i j : Nat) (y : α)
    (hi : i < l.length) (hj : j < l.length) (h : y ∈ lswap l i j) : y ∈ l := by
  rcases mem_of_mem_set _ _ _ _ h with h' | h'
  · subst h'; exact nodeAt_mem _ _ hi
  · rcases mem_of_mem_set _ _ _ _ h' with h'' | h''
    · subst h''; exact nodeAt_mem _ _ hj
    · exact h''

theorem alGet?_alSet_self {β : Type} (m : List (α × β)) (k : α) (v : β) :
    alGet? (alSet m k v) k = some v := by
  induction m with
  | nil => simp [alGet?, alSet]
  | cons p rest ih =>
    by_cases h : p.1 = k
    · simp [alGet?, alSet, h]
    · simp [alGet?, alSet, h, ih]

theorem alGet?_alSet_ne {β : Type} (m : List (α × β)) (k k' : α) (v : β) (h : k ≠ k') :
    alGet? (alSet m k v) k' = alGet? m k' := by
  induction m with
  | nil => simp [alGet?, alSet, h]
  | cons p rest ih =>
    by_cases hp : p.1 = k
    · simp [alGet?, alSet, hp, h]
    · simp only [alSet, if_neg hp]
      by_cases hp' : p.1 = k'
      · simp [alGet?, hp']
      · simp [alGet?, hp', ih]

/-! ### Structural facts about `swapGo` and the core operations -/

theorem swapGo_objects (s : GHeap α) (i j : Nat) :
    (swapGo s i j).objects = lswap s.objects i j := rfl

theorem swapGo_length (s : GHeap α) (i j : Nat) :
    (swapGo s i j).objects.length = s.objects.length := by
  simp [swapGo, length_lswap]

theorem swapGo_indexer (s : GHeap α) (i j : Nat) :
    (swapGo s i j).indexer = s.indexer := rfl

theorem swapGo_lookup (s : GHeap α) (i j : Nat) :
    (swapGo s i j).lookup =
      alSet (alSet s.lookup (nodeAt s.objects i) j) (nodeAt s.objects j) i := rfl

theorem upGo_length (cmp : α → α → Bool) (s : GHeap α) (j : Nat) :
    (upGo cmp s j).objects.length = s.objects.length := by
  induction s, j using upGo.induct cmp with
  | case1 s j i hstop => rw [upGo, if_pos hstop]
  | case2 s j i hstop ih =>
    rw [upGo, if_neg hstop]
    rw [ih, swapGo_length]

theorem upGo_indexer (cmp : α → α → Bool) (s : GHeap α) (j : Nat) :
    (upGo cmp s j).indexer = s.indexer := by
  induction s, j using upGo.induct cmp with
  | case1 s j i hstop => rw [upGo, if_pos hstop]
  | case2 s j i hstop ih =>
    rw [upGo, if_neg hstop]
    rw [ih, swapGo_indexer]

theorem downGo_length (cmp : α → α → Bool) (n : Nat) (s : GHeap α) (i : Nat) :
    (downGo cmp n s i).1.objects.length = s.objects.length := by
  induction s, i using downGo.induct cmp n with
  | case1 s i hstop => rw [downGo, if_pos hstop]
  | case2 s i hstop j hj => rw [downGo, if_neg hstop]; simp only []; rw [if_pos hj]
  | case3 s i hstop j hj ih =>
    rw [downGo, if_neg hstop]
    simp only []
    rw [if_neg hj]
    rw [ih, swapGo_length]

/-! ### Preservation of position-index consistency for resident elements -/

theorem lookupInv_inj (s : GHeap α) (hs : lookupInv s) (k k' : Nat)
    (hk : k < s.objects.length) (hk' : k' < s.objects.length)
    (he : nodeAt s.objects k = nodeAt s.objects k') : k = k' := by
  have h1 := hs k hk
  have h2 := hs k' hk'
  rw [he] at h1
  exact Option.some.inj (h1.symm.trans h2)

theorem lookupInv_swapGo (s : GHeap α) (i j : Nat)
    (hi : i < s.objects.length) (hj : j < s.objects.length) (hs : lookupInv s) :
    lookupInv (swapGo s i j) := by
  intro k hk
  rw [swapGo_length] at hk
  have hobj : nodeAt (swapGo s i j).objects k =
      if k = j then nodeAt s.objects i
      else if k = i then nodeAt s.objects j else nodeAt s.objects k := by
    rw [swapGo_objects]
    exact nodeAt_lswap _ _ _ _ hi hj
  rw [swapGo_lookup, hobj]
  by_cases hkj : k = j
  · rw [if_pos hkj]
    by_cases he : nodeAt s.objects i = nodeAt s.objects j
    · have hij : i = j := lookupInv_inj s hs i j hi hj he
      rw [← he, alGet?_alSet_self, hij, hkj]
    · rw [alGet?_alSet_ne _ _ _ _ (fun h => he h.symm), alGet?_alSet_self, hkj]
  · rw [if_neg hkj]
    by_cases hki : k = i
    · rw [if_pos hki, alGet?_alSet_self, hki]
    · rw [if_neg hki]
      have h1 : nodeAt s.objects k ≠ nodeAt s.objects i :=
        fun h => hki (lookupInv_inj s hs k i hk hi h)
      have h2 : nodeAt s.objects k ≠ nodeAt s.objects j :=
        fun h => hkj (lookupInv_inj s hs k j hk hj h)
      rw [alGet?_alSet_ne _ _ _ _ (fun h => h2 h.symm),
        alGet?_alSet_ne _ _ _ _ (fun h => h1 h.symm)]
      exact hs k hk

theorem lookupInv_pushGo (s : GHeap α) (x : α) (hx : x ∉ s.objects)
    (hs : lookupInv s) : lookupInv (pushGo s x) := by
  intro k hk
  simp only [pushGo, List.length_append, List.length_cons, List.length_nil] at hk
  by_cases hkn : k = s.objects.length
  · subst hkn
    show alGet? (alSet s.lookup x s.objects.length) (nodeAt (s.objects ++ [x]) s.objects.length) =
      some s.objects.length
    rw [nodeAt_append_self, alGet?_alSet_self]
  · have hk' : k < s.objects.length := by omega
    show alGet? (alSet s.lookup x s.objects.length) (nodeAt (s.objects ++ [x]) k) = some k
    rw [nodeAt_append_lt _ _ _ hk']
    have hne : x ≠ nodeAt s.objects k := by
      intro h
      exact hx (h ▸ nodeAt_mem _ _ hk')
    rw [alGet?_alSet_ne _ _ _ _ hne]
    exact hs k hk'

theorem lookupInv_popGo (s : GHeap α) (hs : lookupInv s) : lookupInv (popGo s).1 := by
  intro k hk
  simp only [popGo, List.length_dropLast] at hk ⊢
  rw [nodeAt_dropLast _ _ (by omega)]
  exact hs k (by omega)

theorem lookupInv_upGo (cmp : α → α → Bool) (s : GHeap α) (j : Nat) :
    j < s.objects.length → lookupInv s → lookupInv (upGo cmp s j) := by
  induction s, j using upGo.induct cmp with
  | case1 s j i hstop =>
    intro hj hs
    rw [upGo, if_pos hstop]
    exact hs
  | case2 s j i hstop ih =>
    intro hj hs
    rw [upGo, if_neg hstop]
    have hiv : i = (j - 1) / 2 := rfl
    have hij : i ≤ j := by
      rw [hiv]
      exact Nat.le_trans (Nat.div_le_self _ _) (Nat.pred_le _)
    refine ih ?_ ?_
    · rw [swapGo_length]; exact Nat.lt_of_le_of_lt hij hj
    · exact lookupInv_swapGo s i j (Nat.lt_of_le_of_lt hij hj) hj hs

theorem lookupInv_downGo (cmp : α → α → Bool) (n : Nat) (s : GHeap α) (i : Nat) :
    n ≤ s.objects.length → lookupInv s → lookupInv (downGo cmp n s i).1 := by
  induction s, i using downGo.induct cmp n with
  | case1 s i hstop =>
    intro hn hs
    rw [downGo, if_pos hstop]
    exact hs
  | case2 s i hstop j hj =>
    intro hn hs
    rw [downGo, if_neg hstop]
    simp only []
    rw [if_pos hj]
    exact hs
  | case3 s i hstop j hj ih =>
    intro hn hs
    rw [downGo, if_neg hstop]
    simp only []
    rw [if_neg hj]
    have hjv : j = childSel cmp s n i := rfl
    have hjn : j < n := by
      rw [hjv]
      unfold childSel
      split <;> omega
    have hin : i < n := by omega
    refine ih ?_ ?_
    · rw [swapGo_length]; exact hn
    · exact lookupInv_swapGo s i j (by omega) (by omega) hs

theorem lookupInv_coPushGo (cmp : α → α → Bool) (s : GHeap α) (x : α)
    (hx : x ∉ s.objects) (hs : lookupInv s) : lookupInv (coPushGo cmp s x) := by
  unfold coPushGo
  refine lookupInv_upGo cmp _ _ ?_ (lookupInv_pushGo s x hx hs)
  simp [pushGo]

theorem lookupInv_coPopGo (cmp : α → α → Bool) (s : GHeap α) (s' : GHeap α) (v : α)
    (hs : lookupInv s) (h : coPopGo cmp s = .ok (s', v)) : lookupInv s' := by
  unfold coPopGo at h
  by_cases hlen : s.objects.length = 0
  · rw [if_pos hlen] at h; exact absurd h (by simp)
  · rw [if_neg hlen] at h
    have h1 : (popGo ((downGo cmp (s.objects.length - 1)
        (swapGo s 0 (s.objects.length - 1)) 0).1)).1 = s' :=
      congrArg Prod.fst (Except.ok.inj h)
    rw [← h1]
    refine lookupInv_popGo _ ?_
    refine lookupInv_downGo cmp _ _ _ ?_ ?_
    · rw [swapGo_length]; omega
    · exact lookupInv_swapGo s 0 (s.objects.length - 1) (by omega) (by omega) hs

theorem lookupInv_coRemoveGo (cmp : α → α → Bool) (s : GHeap α) (i : Nat)
    (s' : GHeap α) (v : α) (hs : lookupInv s) (h : coRemoveGo cmp s i = .ok (s', v)) :
    lookupInv s' := by
  unfold coRemoveGo at h
  by_cases hlen : s.objects.length = 0
  · rw [if_pos hlen] at h; exact absurd h (by simp)
  · rw [if_neg hlen] at h
    by_cases heq : s.objects.length - 1 = i
    · rw [if_pos heq] at h
      have h1 : (popGo s).1 = s' := congrArg Prod.fst (Except.ok.inj h)
      rw [← h1]
      exact lookupInv_popGo _ hs
    · rw [if_neg heq] at h
      by_cases hlt : s.objects.length - 1 < i
      · rw [if_pos hlt] at h; exact absurd h (by simp)
      · rw [if_neg hlt] at h
        have h1 : (popGo (if i < (downGo cmp (s.objects.length - 1)
            (swapGo s i (s.objects.length - 1)) i).2 then
              (downGo cmp (s.objects.length - 1) (swapGo s i (s.objects.length - 1)) i).1
            else upGo cmp (downGo cmp (s.objects.length - 1)
              (swapGo s i (s.objects.length - 1)) i).1 i)).1 = s' :=
          congrArg Prod.fst (Except.ok.inj h)
        rw [← h1]
        refine lookupInv_popGo _ ?_
        have hswap : lookupInv (swapGo s i (s.objects.length - 1)) :=
          lookupInv_swapGo s i (s.objects.length - 1) (by omega) (by omega) hs
        have hdown : lookupInv (downGo cmp (s.objects.length - 1)
            (swapGo s i (s.objects.length - 1)) i).1 := by
          refine lookupInv_downGo cmp _ _ _ ?_ hswap
          rw [swapGo_length]
          omega
        by_cases hmov : i < (downGo cmp (s.objects.length - 1)
            (swapGo s i (s.objects.length - 1)) i).2
        · rw [if_pos hmov]
          exact hdown
        · rw [if_neg hmov]
          refine lookupInv_upGo cmp _ _ ?_ hdown
          rw [downGo_length, swapGo_length]
          omega

theorem deleteElemGo_none (cmp : α → α → Bool) (s : GHeap α) (x : α)
    (h : alGet? s.lookup x = none) : deleteElemGo cmp s x = .ok (s, false) := by
  unfold deleteElemGo
  rw [h]

theorem deleteElemGo_some (cmp : α → α → Bool) (s : GHeap α) (x : α) (idx : Nat)
    (h : alGet? s.lookup x = some idx) :
    deleteElemGo cmp s x = (coRemoveGo cmp s idx).map (fun p => (p.1, false)) := by
  unfold deleteElemGo
  rw [h]

theorem lookupInv_deleteElemGo (cmp : α → α → Bool) (s : GHeap α) (x : α)
    (s' : GHeap α) (b : Bool) (hs : lookupInv s)
    (h : deleteElemGo cmp s x = .ok (s', b)) : lookupInv s' := by
  cases hidx : alGet? s.lookup x with
  | none =>
    rw [deleteElemGo_none cmp s x hidx] at h
    have h1 : s = s' := congrArg Prod.fst (Except.ok.inj h)
    rw [← h1]
    exact hs
  | some idx =>
    rw [deleteElemGo_some cmp s x idx hidx] at h
    cases hrem : coRemoveGo cmp s idx with
    | error e =>
      rw [hrem] at h
      exact absurd h (by simp [Except.map])
    | ok p =>
      rw [hrem] at h
      simp only [Except.map] at h
      have h1 : p.1 = s' := congrArg Prod.fst (Except.ok.inj h)
      rw [← h1]
      exact lookupInv_coRemoveGo cmp s idx p.1 p.2 hs hrem

theorem lookupInv_stepGo (cmp : α → α → Bool) (s s' : GHeap α) (op : HOp α)
    (hput : ∀ x, op = .put x → x ∉ s.objects) (hs : lookupInv s)
    (h : stepGo cmp s op = .ok s') : lookupInv s' := by
  cases op with
  | put x =>
    simp only [stepGo, Except.ok.injEq] at h
    rw [← h]
    exact lookupInv_coPushGo cmp s x (hput x rfl) hs
  | get =>
    simp only [stepGo, getGo] at h
    cases hp : coPopGo cmp s with
    | error e => rw [hp] at h; exact absurd h (by simp [Except.map])
    | ok p =>
      rw [hp] at h
      simp only [Except.map, Except.ok.injEq] at h
      rw [← h]
      exact lookupInv_coPopGo cmp s p.1 p.2 hs hp
  | del x =>
    simp only [stepGo] at h
    cases hd : deleteElemGo cmp s x with
    | error e => rw [hd] at h; exact absurd h (by simp [Except.map])
    | ok p =>
      rw [hd] at h
      simp only [Except.map, Except.ok.injEq] at h
      rw [← h]
      exact lookupInv_deleteElemGo cmp s x p.1 p.2 hs hd

/-- Claim C2 (amended): in every state reachable through the public surface,
the Position Index entry of every resident element is exactly the array
position holding it (hence no two resident elements share an entry target);
the unamended claim fails because entries of departed elements are never
removed and may collide with resident entries. -/
theorem C2_resident_lookup_exact (cmp : α → α → Bool) (ix : Bool) (s : GHeap α)
    (h : ReachGo cmp ix s) : lookupInv s := by
  induction h with
  | init => intro k hk; simp [emptyGH] at hk
  | put hr hx hstep ih => exact lookupInv_stepGo cmp _ _ _ (fun y hy => by cases hy; exact hx) ih hstep
  | get hr hstep ih => exact lookupInv_stepGo cmp _ _ _ (fun y hy => by cases hy) ih hstep
  | del hr hstep ih => exact lookupInv_stepGo cmp _ _ _ (fun y hy => by cases hy) ih hstep

/-- Witness for C2: the invariant evaluated on the concrete reachable state
`Put 5; Put 3; Get; Put 4` of a max-heap. -/
theorem C2_resident_lookup_exact_witness : lookupInv collideState := by
  have h1 : ReachGo maxCmp true (coPushGo maxCmp maxHeap0 5) :=
    ReachGo.put ReachGo.init (by simp [maxHeap0, emptyGH]) rfl
  have h2 : ReachGo maxCmp true (coPushGo maxCmp (coPushGo maxCmp maxHeap0 5) 3) :=
    ReachGo.put h1 (by
      simp [coPushGo, upGo, pushGo, swapGo, lswap, nodeAt, lessGo, alGet?, alSet,
        maxCmp, maxHeap0, emptyGH]) rfl
  have hget : stepGo maxCmp (coPushGo maxCmp (coPushGo maxCmp maxHeap0 5) 3) .get =
      .ok (⟨[3], [(5, 1), (3, 0)], [(5, 1), (3, 0)], true⟩ : GHeap Nat) := by
    simp [stepGo, getGo, coPopGo, coPushGo, upGo, downGo, childSel, pushGo, popGo,
      swapGo, lswap, nodeAt, lessGo, alGet?, alSet, maxCmp, maxHeap0, emptyGH,
      Except.map]
  have h3 : ReachGo maxCmp true (⟨[3], [(5, 1), (3, 0)], [(5, 1), (3, 0)], true⟩ : GHeap Nat) :=
    ReachGo.get h2 hget
  have hput4 : stepGo maxCmp (⟨[3], [(5, 1), (3, 0)], [(5, 1), (3, 0)], true⟩ : GHeap Nat)
      (.put 4) = .ok collideState := by
    simp [stepGo, coPushGo, upGo, pushGo, swapGo, lswap, nodeAt, lessGo, alGet?,
      alSet, maxCmp, collideState]
  have h4 : ReachGo maxCmp true collideState :=
    ReachGo.put h3 (by simp) hput4
  exact C2_resident_lookup_exact maxCmp true collideState h4

/-! ### The self-reporting capability on swaps (claim C4) -/

theorem swapGo_selfIdx (s : GHeap α) (i j : Nat) :
    (swapGo s i j).selfIdx =
      if s.indexer then
        alSet (alSet s.selfIdx (nodeAt s.objects i) j) (nodeAt s.objects j) i
      else s.selfIdx := rfl

/-- Claim C4 (amended): every `Swap` on an `Indexer`-capable heap records the
new positions of both moved elements — after `Swap(i, j)` of two distinct
elements, the element now at `i` self-reports `i` and has Position Index
entry `i`, and symmetrically at `j`.  The unamended claim fails for a freshly
inserted element because `Push` records the position only in the Position
Index, never through `SetIndex`. -/
theorem C4_swap_records_both_positions (s : GHeap α) (i j : Nat)
    (hix : s.indexer = true) (hi : i < s.objects.length) (hj : j < s.objects.length)
    (hne : nodeAt s.objects i ≠ nodeAt s.objects j) :
    selfIdxOf (swapGo s i j) (nodeAt (swapGo s i j).objects i) = i ∧
    selfIdxOf (swapGo s i j) (nodeAt (swapGo s i j).objects j) = j ∧
    alGet? (swapGo s i j).lookup (nodeAt (swapGo s i j).objects i) = some i ∧
    alGet? (swapGo s i j).lookup (nodeAt (swapGo s i j).objects j) = some j := by
  have hij : i ≠ j := fun h => hne (by rw [h])
  have hobji : nodeAt (swapGo s i j).objects i = nodeAt s.objects j := by
    rw [swapGo_objects, nodeAt_lswap _ _ _ _ hi hj, if_neg hij, if_pos rfl]
  have hobjj : nodeAt (swapGo s i j).objects j = nodeAt s.objects i := by
    rw [swapGo_objects, nodeAt_lswap _ _ _ _ hi hj, if_pos rfl]
  refine ⟨?_, ?_, ?_, ?_⟩
  · rw [hobji]
    unfold selfIdxOf
    rw [swapGo_selfIdx, if_pos hix, alGet?_alSet_self]
    rfl
  · rw [hobjj]
    unfold selfIdxOf
    rw [swapGo_selfIdx, if_pos hix, alGet?_alSet_ne _ _ _ _ (fun h => hne h.symm),
      alGet?_alSet_self]
    rfl
  · rw [hobji, swapGo_lookup, alGet?_alSet_self]
  · rw [hobjj, swapGo_lookup, alGet?_alSet_ne _ _ _ _ (fun h => hne h.symm),
      alGet?_alSet_self]

/-- Witness for C4 (amended): `Swap(0, 1)` on the two-element max-heap state
holding 9 and 5. -/
theorem C4_swap_records_both_positions_witness :
    selfIdxOf (swapGo (⟨[9, 5], [(9, 0), (5, 1)], [], true⟩ : GHeap Nat) 0 1)
        (nodeAt (swapGo (⟨[9, 5], [(9, 0), (5, 1)], [], true⟩ : GHeap Nat) 0 1).objects 0) = 0 ∧
    selfIdxOf (swapGo (⟨[9, 5], [(9, 0), (5, 1)], [], true⟩ : GHeap Nat) 0 1)
        (nodeAt (swapGo (⟨[9, 5], [(9, 0), (5, 1)], [], true⟩ : GHeap Nat) 0 1).objects 1) = 1 ∧
    alGet? (swapGo (⟨[9, 5], [(9, 0), (5, 1)], [], true⟩ : GHeap Nat) 0 1).lookup
        (nodeAt (swapGo (⟨[9, 5], [(9, 0), (5, 1)], [], true⟩ : GHeap Nat) 0 1).objects 0) = some 0 ∧
    alGet? (swapGo (⟨[9, 5], [(9, 0), (5, 1)], [], true⟩ : GHeap Nat) 0 1).lookup
        (nodeAt (swapGo (⟨[9, 5], [(9, 0), (5, 1)], [], true⟩ : GHeap Nat) 0 1).objects 1) = some 1 :=
  C4_swap_records_both_positions (⟨[9, 5], [(9, 0), (5, 1)], [], true⟩ : GHeap Nat) 0 1
    (by decide) (by decide) (by decide) (by decide)

/-! ### Freshness of the out pointer (claim C10) -/

theorem fresh_swapGo (s : GHeap α) (i j : Nat) (f : α)
    (hi : i < s.objects.length) (hj : j < s.objects.length)
    (hf : f ∉ s.objects) (hl : alGet? s.lookup f = none) :
    f ∉ (swapGo s i j).objects ∧ alGet? (swapGo s i j).lookup f = none := by
  constructor
  · intro hmem
    rw [swapGo_objects] at hmem
    exact hf (mem_of_mem_lswap _ _ _ _ hi hj hmem)
  · rw [swapGo_lookup]
    have h1 : nodeAt s.objects i ≠ f := fun h => hf (h ▸ nodeAt_mem _ _ hi)
    have h2 : nodeAt s.objects j ≠ f := fun h => hf (h ▸ nodeAt_mem _ _ hj)
    rw [alGet?_alSet_ne _ _ _ _ h2, alGet?_alSet_ne _ _ _ _ h1]
    exact hl

theorem fresh_downGo (cmp : α → α → Bool) (n : Nat) (s : GHeap α) (i : Nat) (f : α) :
    n ≤ s.objects.length → f ∉ s.objects → alGet? s.lookup f = none →
    f ∉ (downGo cmp n s i).1.objects ∧ alGet? (downGo cmp n s i).1.lookup f = none := by
  induction s, i using downGo.induct cmp n with
  | case1 s i hstop =>
    intro hn hf hl
    rw [downGo, if_pos hstop]
    exact ⟨hf, hl⟩
  | case2 s i hstop j hj =>
    intro hn hf hl
    rw [downGo, if_neg hstop]
    simp only []
    rw [if_pos hj]
    exact ⟨hf, hl⟩
  | case3 s i hstop j hj ih =>
    intro hn hf hl
    rw [downGo, if_neg hstop]
    simp only []
    rw [if_neg hj]
    have hjv : j = childSel cmp s n i := rfl
    have hjn : j < n := by
      rw [hjv]
      unfold childSel
      split <;> omega
    have hsw := fresh_swapGo s i j f (by omega) (by omega) hf hl
    refine ih ?_ hsw.1 hsw.2
    rw [swapGo_length]
    exact hn

theorem downGo_nodeAt_ge (cmp : α → α → Bool) (n : Nat) (s : GHeap α) (i : Nat) :
    n ≤ s.objects.length →
    ∀ k, n ≤ k → nodeAt (downGo cmp n s i).1.objects k = nodeAt s.objects k := by
  induction s, i using downGo.induct cmp n with
  | case1 s i hstop =>
    intro hn k hk
    rw [downGo, if_pos hstop]
  | case2 s i hstop j hj =>
    intro hn k hk
    rw [downGo, if_neg hstop]
    simp only []
    rw [if_pos hj]
  | case3 s i hstop j hj ih =>
    intro hn k hk
    rw [downGo, if_neg hstop]
    simp only []
    rw [if_neg hj]
    have hjv : j = childSel cmp s n i := rfl
    have hjn : j < n := by
      rw [hjv]
      unfold childSel
      split <;> omega
    rw [ih (by rw [swapGo_length]; exact hn) k hk]
    rw [swapGo_objects, nodeAt_lswap _ _ _ _ (by omega) (by omega),
      if_neg (by omega : k ≠ j), if_neg (by omega : k ≠ i)]

/-- Claim C10 (confirmed): on a nonempty heap, `Peek` and `Get` deliver the
value of the root element by copying it through the caller's out pointer; the
out pointer itself (any `f` distinct from every stored element and absent
from the map — in particular one whose pointed-to value equals the delivered
value) is never added to the array or the Position Index.  `Peek` performs no
mutation at all, so the state after it is still `s` and `RemoveByIdentity(f)`
on it finds nothing; after `Get`, `f` is likewise absent from the array and
the map, and `RemoveByIdentity(f)` finds nothing and leaves the state
unchanged — even though the delivered (still resident, for `Peek`) element's
value equals the out slot's. -/
theorem C10_out_pointer_never_tracked (cmp : α → α → Bool) (s : GHeap α) (f : α)
    (hne : ¬ s.objects.length = 0) (hf : f ∉ s.objects) (hl : alGet? s.lookup f = none) :
    (peekGo s = .ok (nodeAt s.objects 0) ∧
     deleteElemGo cmp s f = .ok (s, false)) ∧
    ∀ s' v, getGo cmp s = .ok (s', v) →
      v = nodeAt s.objects 0 ∧ f ∉ s'.objects ∧ alGet? s'.lookup f = none ∧
      deleteElemGo cmp s' f = .ok (s', false) := by
  constructor
  · constructor
    · unfold peekGo
      rw [if_neg hne]
    · exact deleteElemGo_none cmp s f hl
  intro s' v h
  unfold getGo coPopGo at h
  rw [if_neg hne] at h
  have hp := Except.ok.inj h
  have hlen1 : (swapGo s 0 (s.objects.length - 1)).objects.length = s.objects.length :=
    swapGo_length s 0 (s.objects.length - 1)
  have hlen2 : (downGo cmp (s.objects.length - 1)
      (swapGo s 0 (s.objects.length - 1)) 0).1.objects.length = s.objects.length := by
    rw [downGo_length, hlen1]
  have hsw := fresh_swapGo s 0 (s.objects.length - 1) f (by omega) (by omega) hf hl
  have hdn := fresh_downGo cmp (s.objects.length - 1)
    (swapGo s 0 (s.objects.length - 1)) 0 f (by omega) hsw.1 hsw.2
  have hs' : s' = (popGo (downGo cmp (s.objects.length - 1)
      (swapGo s 0 (s.objects.length - 1)) 0).1).1 := (congrArg Prod.fst hp).symm
  have hv : (popGo (downGo cmp (s.objects.length - 1)
      (swapGo s 0 (s.objects.length - 1)) 0).1).2 = v := congrArg Prod.snd hp
  refine ⟨?_, ?_, ?_, ?_⟩
  · rw [← hv]
    show nodeAt _ _ = nodeAt s.objects 0
    rw [hlen2]
    rw [downGo_nodeAt_ge cmp _ _ _ (by omega) (s.objects.length - 1) (by omega)]
    rw [swapGo_objects, nodeAt_lswap _ _ _ _ (by omega) (by omega), if_pos rfl]
  · rw [hs']
    intro hmem
    exact hdn.1 (mem_of_mem_dropLast _ _ hmem)
  · rw [hs']
    exact hdn.2
  · rw [hs']
    exact deleteElemGo_none cmp _ f hdn.2

/-- Witness for C10: `Peek` and `Get` on the one-element max-heap holding 5,
with the fresh out-pointer identity 7 (whose value may well equal the
delivered 5). -/
theorem C10_out_pointer_never_tracked_witness :
    (peekGo oneElemHeap = .ok (nodeAt oneElemHeap.objects 0) ∧
     deleteElemGo maxCmp oneElemHeap 7 = .ok (oneElemHeap, false)) ∧
    ((5 : Nat) = nodeAt oneElemHeap.objects 0 ∧ (7 : Nat) ∉ afterGet5.objects ∧
     alGet? afterGet5.lookup 7 = none ∧
     deleteElemGo maxCmp afterGet5 7 = .ok (afterGet5, false)) :=
  have hall := C10_out_pointer_never_tracked maxCmp oneElemHeap 7
    (by simp [oneElemHeap, coPushGo, upGo, pushGo, swapGo, lswap, nodeAt, lessGo,
      alGet?, alSet, maxCmp, maxHeap0, emptyGH])
    (by simp [oneElemHeap, coPushGo, upGo, pushGo, swapGo, lswap, nodeAt, lessGo,
      alGet?, alSet, maxCmp, maxHeap0, emptyGH])
    (by simp [oneElemHeap, coPushGo, upGo, pushGo, swapGo, lswap, nodeAt, lessGo,
      alGet?, alSet, maxCmp, maxHeap0, emptyGH])
  ⟨hall.1, hall.2 afterGet5 5
    (by simp [getGo, coPopGo, coPushGo, upGo, downGo, childSel, pushGo, popGo,
      swapGo, lswap, nodeAt, lessGo, alGet?, alSet, maxCmp, maxHeap0, emptyGH,
      oneElemHeap, afterGet5])⟩

/-! ### Empty-heap and type-mismatch behaviour of the typed front end -/

/-- Claim C7 (amended): `Peek` and `Get` on an empty heap (with a correctly
typed out pointer) abort with an index-out-of-range runtime panic, not with
an error value — no `EmptyError` exists in the code — and the state is
unchanged (the faulting read precedes every write). -/
theorem C7_empty_heap_panic_not_error (cmp : α → α → Bool) (h : THeap α) (ty : GoType)
    (he : h.core.objects = []) (hty : ty = h.dataType) :
    peekT h ty = (some (.goPanic "index out of range"), h, none) ∧
    getT cmp h ty = (some (.goPanic "index out of range"), h, none) ∧
    abortIsError (peekT h ty).1 = false ∧
    abortIsError (getT cmp h ty).1 = false := by
  have hlen : h.core.objects.length = 0 := by rw [he]; rfl
  have hp : peekT h ty = (some (.goPanic "index out of range"), h, none) := by
    unfold peekT peekGo
    rw [if_neg (by simp [hty]), if_pos hlen]
  have hg : getT cmp h ty = (some (.goPanic "index out of range"), h, none) := by
    unfold getT getGo coPopGo
    rw [if_neg (by simp [hty]), if_pos hlen]
  exact ⟨hp, hg, by rw [hp]; rfl, by rw [hg]; rfl⟩

/-- Witness for C7 (amended): the freshly constructed typed max-heap. -/
theorem C7_empty_heap_panic_not_error_witness :
    peekT emptyTHeap tIntElem = (some (.goPanic "index out of range"), emptyTHeap, none) ∧
    getT maxCmp emptyTHeap tIntElem = (some (.goPanic "index out of range"), emptyTHeap, none) ∧
    abortIsError (peekT emptyTHeap tIntElem).1 = false ∧
    abortIsError (getT maxCmp emptyTHeap tIntElem).1 = false :=
  C7_empty_heap_panic_not_error maxCmp emptyTHeap tIntElem rfl rfl

/-- Claim C8 (amended): `Put`, `Peek` and `Get` called with an argument whose
type differs from the heap's witness type abort with a runtime panic — not
with an error value, since no `TypeMismatchError` exists in the code — and
leave the heap state (array, Position Index and all element positions)
unchanged, the check being the first statement of each operation. -/
theorem C8_mismatch_panics_no_mutation (cmp : α → α → Bool) (h : THeap α)
    (ty : GoType) (x : α) (hty : ty ≠ h.dataType) :
    putT cmp h ty x = (some (.goPanic "tried to put invalid type"), h) ∧
    peekT h ty = (some (.goPanic "bad target type"), h, none) ∧
    getT cmp h ty = (some (.goPanic "bad target type"), h, none) ∧
    abortIsError (putT cmp h ty x).1 = false := by
  have hp : putT cmp h ty x = (some (.goPanic "tried to put invalid type"), h) := by
    unfold putT
    rw [if_pos hty]
  refine ⟨hp, ?_, ?_, by rw [hp]; rfl⟩
  · unfold peekT
    rw [if_pos hty]
  · unfold getT
    rw [if_pos hty]

/-- Witness for C8 (amended): inserting through the type `tOtherPtr` into the
max-heap over `*IntElem`. -/
theorem C8_mismatch_panics_no_mutation_witness :
    putT maxCmp oneElemTHeap tOtherPtr 3 =
      (some (.goPanic "tried to put invalid type"), oneElemTHeap) ∧
    peekT oneElemTHeap tOtherPtr = (some (.goPanic "bad target type"), oneElemTHeap, none) ∧
    getT maxCmp oneElemTHeap tOtherPtr = (some (.goPanic "bad target type"), oneElemTHeap, none) ∧
    abortIsError (putT maxCmp oneElemTHeap tOtherPtr 3).1 = false :=
  C8_mismatch_panics_no_mutation maxCmp oneElemTHeap tOtherPtr 3 (by decide)

/-- Claim C9 (amended): for every non-nil policy value, `NewHeap` returns a
configuration `error` value exactly when the policy's shape is wrong and never
panics; and no public operation ever produces an `error` value (their only
aborts are runtime panics), so a configuration error can only arise at
construction.  The unamended claim fails only for a nil policy, which panics
inside `reflect`. -/
theorem C9_config_error_iff_shape_wrong (t : GoType) :
    ((∃ msg, newHeapGo (some t) = .error (.goError msg)) ↔ specShapeWrong t) ∧
    (∀ msg, newHeapGo (some t) ≠ .error (.goPanic msg)) ∧
    (∀ (cmp : α → α → Bool) (h : THeap α) (ty : GoType) (x : α),
      abortIsError (putT cmp h ty x).1 = false ∧
      abortIsError (getT cmp h ty).1 = false ∧
      abortIsError (peekT h ty).1 = false) := by
  have hred : newHeapGo (some t) = (match checkAndSetFn t with
      | .error msg => .error (.goError msg)
      | .ok cfg => .ok cfg) := rfl
  refine ⟨?_, ?_, ?_⟩
  · rw [hred]
    unfold checkAndSetFn specShapeWrong
    split_ifs with h1 h2 h3 h4 h5 h6 <;> simp_all
  · intro msg
    rw [hred]
    unfold checkAndSetFn
    split_ifs <;> simp
  · intro cmp h ty x
    refine ⟨?_, ?_, ?_⟩
    · unfold putT
      split <;> rfl
    · unfold getT
      split
      · rfl
      · cases getGo cmp h.core with
        | error e => rfl
        | ok p => rfl
    · unfold peekT
      split
      · rfl
      · cases peekGo h.core with
        | error e => rfl
        | ok p => rfl

/-! ### The heap-order invariant (claim C5)

`container/heap` inherits `sort.Interface`'s contract for `Less`: it must
describe a strict weak ordering.  The two properties actually used below are
asymmetry and negative transitivity (the transitivity of the induced
"does not precede" relation). -/

/-- Asymmetry of the ordering policy: `a` preceding `b` forbids `b` preceding `a`. -/
def Asymm (cmp : α → α → Bool) : Prop :=
  ∀ a b, cmp a b = true → cmp b a = false

/-- Negative transitivity of the ordering policy. -/
def NegTrans (cmp : α → α → Bool) : Prop :=
  ∀ a b c, cmp a b = false → cmp b c = false → cmp a c = false

theorem cmp_trans (cmp : α → α → Bool) (ha : Asymm cmp) (hnt : NegTrans cmp) :
    ∀ a b c, cmp a b = true → cmp b c = true → cmp a c = true := by
  intro a b c hab hbc
  cases hac : cmp a c with
  | true => rfl
  | false =>
    have hcb : cmp c b = false := ha b c hbc
    have hfalse := hnt a c b hac hcb
    rw [hab] at hfalse
    exact absurd hfalse (by simp)

theorem nodeAt_swapGo (s : GHeap α) (i j k : Nat)
    (hi : i < s.objects.length) (hj : j < s.objects.length) :
    nodeAt (swapGo s i j).objects k =
      if k = j then nodeAt s.objects i
      else if k = i then nodeAt s.objects j else nodeAt s.objects k := by
  rw [swapGo_objects]
  exact nodeAt_lswap _ _ _ _ hi hj

/-- Behaviour of the `down` loop from position `i`, relative to the start
position `i0`: if every edge not incident to `i` holds, every child of `i`
would be in order under the grandparent of `i`, and the edge at `i` itself
holds unless `i` is the start position, then after the loop every edge except
possibly the one at `i0` holds, the edge at `i0` also holds whenever the loop
moved, and a loop that did not move left the state untouched. -/
theorem downGo_spec (cmp : α → α → Bool) (ha : Asymm cmp) (hnt : NegTrans cmp)
    (n i0 : Nat) :
    ∀ (s : GHeap α) (i : Nat), i0 ≤ i → (i0 < n ∨ i0 = 0) → n ≤ s.objects.length →
    (∀ k, 0 < k → k < n → (k-1)/2 ≠ i → k ≠ i → edgeAt cmp s.objects k) →
    (i ≠ 0 → ∀ k, 0 < k → k < n → (k-1)/2 = i →
        cmp (nodeAt s.objects k) (nodeAt s.objects ((i-1)/2)) = false) →
    (i ≠ i0 → edgeAt cmp s.objects i) →
    ((∀ k, 0 < k → k < n → k ≠ i0 → edgeAt cmp (downGo cmp n s i).1.objects k) ∧
     ((downGo cmp n s i).2 ≠ i0 → 0 < i0 → edgeAt cmp (downGo cmp n s i).1.objects i0) ∧
     ((downGo cmp n s i).2 = i → (downGo cmp n s i).1 = s) ∧
     i ≤ (downGo cmp n s i).2) := by
  intro s i
  induction s, i using downGo.induct cmp n with
  | case1 s i hstop =>
    intro hi0 hi0n hn hP1 hP2 hP3
    rw [downGo, if_pos hstop]
    refine ⟨?_, ?_, fun _ => rfl, Nat.le_refl i⟩
    · intro k hk0 hkn hki0
      by_cases hki : k = i
      · have hii0 : i ≠ i0 := by omega
        have he := hP3 hii0
        rw [← hki] at he
        exact he
      · by_cases hpki : (k-1)/2 = i
        · exfalso
          omega
        · exact hP1 k hk0 hkn hpki hki
    · intro hfi hi00
      exact hP1 i0 hi00 (by omega) (by omega) (by omega)
  | case2 s i hstop j hj =>
    intro hi0 hi0n hn hP1 hP2 hP3
    rw [downGo, if_neg hstop]
    simp only []
    rw [if_pos hj]
    have hjv : j = childSel cmp s n i := rfl
    have hbrk : lessGo cmp s j i = false := eq_false_of_ne_true hj
    unfold lessGo at hbrk
    refine ⟨?_, ?_, fun _ => rfl, Nat.le_refl i⟩
    · intro k hk0 hkn hki0
      by_cases hki : k = i
      · have hii0 : i ≠ i0 := by omega
        have he := hP3 hii0
        rw [← hki] at he
        exact he
      · by_cases hpki : (k-1)/2 = i
        · have hk12 : k = 2*i+1 ∨ k = 2*i+2 := by omega
          unfold edgeAt
          unfold childSel at hjv
          by_cases hsel : 2*i+2 < n ∧ lessGo cmp s (2*i+2) (2*i+1) = true
          · rw [if_pos hsel] at hjv
            rcases hk12 with hk | hk
            · subst hk
              rw [hpki]
              cases hcc : cmp (nodeAt s.objects (2*i+1)) (nodeAt s.objects i) with
              | false => rfl
              | true =>
                exfalso
                have h2 := hsel.2
                unfold lessGo at h2
                have htr := cmp_trans cmp ha hnt _ _ _ h2 hcc
                rw [hjv] at hbrk
                rw [htr] at hbrk
                simp at hbrk
            · subst hk
              rw [hpki]
              rw [hjv] at hbrk
              exact hbrk
          · rw [if_neg hsel] at hjv
            rcases hk12 with hk | hk
            · subst hk
              rw [hpki]
              rw [hjv] at hbrk
              exact hbrk
            · subst hk
              rw [hpki]
              have hc : lessGo cmp s (2*i+2) (2*i+1) = false := by
                cases hcc : lessGo cmp s (2*i+2) (2*i+1) with
                | true => exact absurd ⟨by omega, hcc⟩ hsel
                | false => rfl
              unfold lessGo at hc
              rw [hjv] at hbrk
              exact hnt _ _ _ hc hbrk
        · exact hP1 k hk0 hkn hpki hki
    · intro hfi hi00
      exact hP1 i0 hi00 (by omega) (by omega) (by omega)
  | case3 s i hstop j hj ih =>
    intro hi0 hi0n hn hP1 hP2 hP3
    have hjv : j = childSel cmp s n i := rfl
    rw [downGo, if_neg hstop]
    simp only []
    rw [if_neg hj, ← hjv]
    have hjn : j < n := by
      rw [hjv]
      unfold childSel
      split <;> omega
    have hin : i < n := by omega
    have hij : i < j := by
      rw [hjv]
      unfold childSel
      split <;> omega
    have hpj : (j-1)/2 = i := by
      rw [hjv]
      unfold childSel
      split <;> omega
    have hile : i < s.objects.length := by omega
    have hjle : j < s.objects.length := by omega
    have hless : lessGo cmp s j i = true := of_not_not hj
    unfold lessGo at hless
    have hnd : ∀ k, nodeAt (swapGo s i j).objects k =
        if k = j then nodeAt s.objects i
        else if k = i then nodeAt s.objects j else nodeAt s.objects k :=
      fun k => nodeAt_swapGo s i j k hile hjle
    have hP1' : ∀ k, 0 < k → k < n → (k-1)/2 ≠ j → k ≠ j →
        edgeAt cmp (swapGo s i j).objects k := by
      intro k hk0 hkn hpkj hkj
      by_cases hki : k = i
      · subst hki
        unfold edgeAt
        rw [hnd k, hnd ((k-1)/2)]
        rw [if_neg hkj, if_pos rfl, if_neg (by omega : (k-1)/2 ≠ j),
          if_neg (by omega : (k-1)/2 ≠ k)]
        exact hP2 (by omega) j (by omega) hjn hpj
      · by_cases hpki : (k-1)/2 = i
        · have hk12 : k = 2*i+1 ∨ k = 2*i+2 := by omega
          unfold edgeAt
          rw [hnd k, hnd ((k-1)/2)]
          rw [if_neg hkj, if_neg hki, hpki, if_neg (by omega : i ≠ j), if_pos rfl]
          unfold childSel at hjv
          by_cases hsel : 2*i+2 < n ∧ lessGo cmp s (2*i+2) (2*i+1) = true
          · rw [if_pos hsel] at hjv
            have hk1 : k = 2*i+1 := by omega
            have h2 := hsel.2
            unfold lessGo at h2
            rw [hjv, hk1]
            exact ha _ _ h2
          · rw [if_neg hsel] at hjv
            have hk2 : k = 2*i+2 := by omega
            have hc : lessGo cmp s (2*i+2) (2*i+1) = false := by
              cases hcc : lessGo cmp s (2*i+2) (2*i+1) with
              | true => exact absurd ⟨by omega, hcc⟩ hsel
              | false => rfl
            unfold lessGo at hc
            rw [hjv, hk2]
            exact hc
        · unfold edgeAt
          rw [hnd k, hnd ((k-1)/2)]
          rw [if_neg hkj, if_neg hki, if_neg hpkj, if_neg hpki]
          have he := hP1 k hk0 hkn hpki hki
          unfold edgeAt at he
          exact he
    have hP2' : j ≠ 0 → ∀ k, 0 < k → k < n → (k-1)/2 = j →
        cmp (nodeAt (swapGo s i j).objects k)
          (nodeAt (swapGo s i j).objects ((j-1)/2)) = false := by
      intro hj0 k hk0 hkn hpk
      rw [hnd k, hnd ((j-1)/2), hpj]
      rw [if_neg (by omega : k ≠ j), if_neg (by omega : k ≠ i),
        if_neg (by omega : i ≠ j), if_pos rfl]
      have he := hP1 k hk0 hkn (by omega) (by omega)
      unfold edgeAt at he
      rw [hpk] at he
      exact he
    have hP3' : j ≠ i0 → edgeAt cmp (swapGo s i j).objects j := by
      intro hji0
      unfold edgeAt
      rw [hnd j, hnd ((j-1)/2), hpj]
      rw [if_pos rfl, if_neg (by omega : i ≠ j), if_pos rfl]
      exact ha _ _ hless
    have IH := ih (by omega) hi0n (by rw [swapGo_length]; exact hn) hP1' hP2' hP3'
    refine ⟨IH.1, IH.2.1, ?_, ?_⟩
    · intro hfin
      exfalso
      have hge := IH.2.2.2
      omega
    · have hge := IH.2.2.2
      omega

/-- Behaviour of `up` from position `j`: if every edge other than the one at
`j` holds on the first `n` positions and every child of `j` would be in order
under the grandparent of `j`, then after the walk the heap order holds on the
whole prefix. -/
theorem upGo_spec (cmp : α → α → Bool) (ha : Asymm cmp) (hnt : NegTrans cmp)
    (n : Nat) :
    ∀ (s : GHeap α) (j : Nat), j < n → n ≤ s.objects.length →
    (∀ k, 0 < k → k < n → k ≠ j → edgeAt cmp s.objects k) →
    (j ≠ 0 → ∀ k, 0 < k → k < n → (k-1)/2 = j →
        cmp (nodeAt s.objects k) (nodeAt s.objects ((j-1)/2)) = false) →
    heapInvOn cmp (upGo cmp s j).objects n := by
  intro s j
  induction s, j using upGo.induct cmp with
  | case1 s j i hstop =>
    intro hjn hn hA hB
    rw [upGo, if_pos hstop]
    intro k hk0 hkn
    by_cases hkj : k = j
    · subst hkj
      have hiv : i = (k-1)/2 := rfl
      rcases hstop with hstop | hstop
      · exfalso
        omega
      · unfold edgeAt
        have hbrk : lessGo cmp s k i = false := eq_false_of_ne_true hstop
        unfold lessGo at hbrk
        rw [hiv] at hbrk
        exact hbrk
    · exact hA k hk0 hkn hkj
  | case2 s j i hstop ih =>
    intro hjn hn hA hB
    rw [upGo, if_neg hstop]
    push_neg at hstop
    have hiv : i = (j-1)/2 := rfl
    have hij : i < j := by omega
    have hj0 : j ≠ 0 := by omega
    have hless : cmp (nodeAt s.objects j) (nodeAt s.objects i) = true := by
      have h2 := hstop.2
      unfold lessGo at h2
      exact h2
    have hile : i < s.objects.length := by omega
    have hjle : j < s.objects.length := by omega
    have hnd : ∀ k, nodeAt (swapGo s i j).objects k =
        if k = j then nodeAt s.objects i
        else if k = i then nodeAt s.objects j else nodeAt s.objects k :=
      fun k => nodeAt_swapGo s i j k hile hjle
    have hA1 : ∀ k, 0 < k → k < n → k ≠ i → edgeAt cmp (swapGo s i j).objects k := by
      intro k hk0 hkn hki
      unfold edgeAt
      rw [hnd k, hnd ((k-1)/2)]
      by_cases hkj : k = j
      · subst hkj
        rw [if_pos rfl, ← hiv, if_neg (by omega : i ≠ k), if_pos rfl]
        exact ha _ _ hless
      · by_cases hpkj : (k-1)/2 = j
        · rw [if_neg hkj, if_neg hki, hpkj, if_pos rfl]
          have hc := hB hj0 k hk0 hkn hpkj
          rw [← hiv] at hc
          exact hc
        · by_cases hpki : (k-1)/2 = i
          · rw [if_neg hkj, if_neg hki, hpki, if_neg (by omega : i ≠ j), if_pos rfl]
            cases hcc : cmp (nodeAt s.objects k) (nodeAt s.objects j) with
            | false => rfl
            | true =>
              exfalso
              have htr := cmp_trans cmp ha hnt _ _ _ hcc hless
              have hedge := hA k hk0 hkn hkj
              unfold edgeAt at hedge
              rw [hpki] at hedge
              rw [htr] at hedge
              simp at hedge
          · rw [if_neg hkj, if_neg hki, if_neg hpkj, if_neg hpki]
            have he := hA k hk0 hkn hkj
            unfold edgeAt at he
            exact he
    have hB1 : i ≠ 0 → ∀ k, 0 < k → k < n → (k-1)/2 = i →
        cmp (nodeAt (swapGo s i j).objects k)
          (nodeAt (swapGo s i j).objects ((i-1)/2)) = false := by
      intro hi0 k hk0 hkn hpki
      rw [hnd k, hnd ((i-1)/2)]
      rw [if_neg (by omega : (i-1)/2 ≠ j), if_neg (by omega : (i-1)/2 ≠ i)]
      by_cases hkj : k = j
      · subst hkj
        rw [if_pos rfl]
        have hedge := hA i (by omega) (by omega) (by omega : i ≠ k)
        unfold edgeAt at hedge
        exact hedge
      · rw [if_neg hkj, if_neg (by omega : k ≠ i)]
        have he1 := hA k hk0 hkn hkj
        unfold edgeAt at he1
        rw [hpki] at he1
        have he2 := hA i (by omega) (by omega) (by omega : i ≠ j)
        unfold edgeAt at he2
        exact hnt _ _ _ he1 he2
    exact ih (by omega) (by rw [swapGo_length]; exact hn) hA1 hB1

theorem pushGo_objects (s : GHeap α) (x : α) :
    (pushGo s x).objects = s.objects ++ [x] := rfl

theorem popGo_objects (s : GHeap α) :
    (popGo s).1.objects = s.objects.dropLast := rfl

theorem heapInv_coPushGo (cmp : α → α → Bool) (ha : Asymm cmp) (hnt : NegTrans cmp)
    (s : GHeap α) (x : α) (hinv : heapInv cmp s.objects) :
    heapInv cmp (coPushGo cmp s x).objects := by
  unfold coPushGo
  have hlen : (pushGo s x).objects.length = s.objects.length + 1 := by
    rw [pushGo_objects]
    simp
  show heapInv cmp (upGo cmp (pushGo s x) ((pushGo s x).objects.length - 1)).objects
  unfold heapInv
  rw [upGo_length, hlen, Nat.add_sub_cancel]
  apply upGo_spec cmp ha hnt (s.objects.length + 1) (pushGo s x) s.objects.length
    (by omega) (by rw [hlen]) ?_ ?_
  · intro k hk0 hkn hkj
    unfold edgeAt
    rw [pushGo_objects, nodeAt_append_lt _ _ _ (by omega), nodeAt_append_lt _ _ _ (by omega)]
    have he := hinv k hk0 (by omega)
    unfold edgeAt at he
    exact he
  · intro hj0 k hk0 hkn hpk
    exfalso
    omega

theorem heapInv_coPopGo (cmp : α → α → Bool) (ha : Asymm cmp) (hnt : NegTrans cmp)
    (s s' : GHeap α) (v : α) (hinv : heapInv cmp s.objects)
    (h : coPopGo cmp s = .ok (s', v)) : heapInv cmp s'.objects := by
  unfold coPopGo at h
  by_cases hlen : s.objects.length = 0
  · rw [if_pos hlen] at h
    exact absurd h (by simp)
  · rw [if_neg hlen] at h
    have hs' : (popGo ((downGo cmp (s.objects.length - 1)
        (swapGo s 0 (s.objects.length - 1)) 0).1)).1 = s' :=
      congrArg Prod.fst (Except.ok.inj h)
    rw [← hs']
    have h0le : 0 < s.objects.length := by omega
    have hnle : s.objects.length - 1 < s.objects.length := by omega
    have hnd : ∀ k, nodeAt (swapGo s 0 (s.objects.length - 1)).objects k =
        if k = s.objects.length - 1 then nodeAt s.objects 0
        else if k = 0 then nodeAt s.objects (s.objects.length - 1)
        else nodeAt s.objects k :=
      fun k => nodeAt_swapGo s 0 (s.objects.length - 1) k h0le hnle
    have hP1 : ∀ k, 0 < k → k < s.objects.length - 1 → (k-1)/2 ≠ 0 → k ≠ 0 →
        edgeAt cmp (swapGo s 0 (s.objects.length - 1)).objects k := by
      intro k hk0 hkn hpk hk0'
      unfold edgeAt
      rw [hnd k, hnd ((k-1)/2)]
      rw [if_neg (by omega : k ≠ s.objects.length - 1), if_neg hk0',
        if_neg (by omega : (k-1)/2 ≠ s.objects.length - 1), if_neg hpk]
      have he := hinv k hk0 (by omega)
      unfold edgeAt at he
      exact he
    have hspec := downGo_spec cmp ha hnt (s.objects.length - 1) 0
      (swapGo s 0 (s.objects.length - 1)) 0 (Nat.le_refl 0) (Or.inr rfl)
      (by rw [swapGo_length]; omega) hP1
      (fun h0 => absurd rfl h0) (fun h0 => absurd rfl h0)
    have hlen2 : (downGo cmp (s.objects.length - 1)
        (swapGo s 0 (s.objects.length - 1)) 0).1.objects.length = s.objects.length := by
      rw [downGo_length, swapGo_length]
    unfold heapInv
    rw [popGo_objects]
    rw [List.length_dropLast, hlen2]
    intro k hk0 hkn
    unfold edgeAt
    rw [nodeAt_dropLast _ _ (by omega), nodeAt_dropLast _ _ (by omega)]
    have he := hspec.1 k hk0 hkn (by omega)
    unfold edgeAt at he
    exact he

theorem heapInv_coRemoveGo (cmp : α → α → Bool) (ha : Asymm cmp) (hnt : NegTrans cmp)
    (s s' : GHeap α) (i : Nat) (v : α) (hinv : heapInv cmp s.objects)
    (h : coRemoveGo cmp s i = .ok (s', v)) : heapInv cmp s'.objects := by
  unfold coRemoveGo at h
  by_cases hlen : s.objects.length = 0
  · rw [if_pos hlen] at h
    exact absurd h (by simp)
  · rw [if_neg hlen] at h
    by_cases heq : s.objects.length - 1 = i
    · rw [if_pos heq] at h
      have hs' : (popGo s).1 = s' := congrArg Prod.fst (Except.ok.inj h)
      rw [← hs']
      unfold heapInv
      rw [popGo_objects, List.length_dropLast]
      intro k hk0 hkn
      unfold edgeAt
      rw [nodeAt_dropLast _ _ (by omega), nodeAt_dropLast _ _ (by omega)]
      have he := hinv k hk0 (by omega)
      unfold edgeAt at he
      exact he
    · rw [if_neg heq] at h
      by_cases hlt : s.objects.length - 1 < i
      · rw [if_pos hlt] at h
        exact absurd h (by simp)
      · rw [if_neg hlt] at h
        have hiltn : i < s.objects.length - 1 := by omega
        have hile : i < s.objects.length := by omega
        have hnle : s.objects.length - 1 < s.objects.length := by omega
        have hnd : ∀ k, nodeAt (swapGo s i (s.objects.length - 1)).objects k =
            if k = s.objects.length - 1 then nodeAt s.objects i
            else if k = i then nodeAt s.objects (s.objects.length - 1)
            else nodeAt s.objects k :=
          fun k => nodeAt_swapGo s i (s.objects.length - 1) k hile hnle
        have hP1 : ∀ k, 0 < k → k < s.objects.length - 1 → (k-1)/2 ≠ i → k ≠ i →
            edgeAt cmp (swapGo s i (s.objects.length - 1)).objects k := by
          intro k hk0 hkn hpk hki
          unfold edgeAt
          rw [hnd k, hnd ((k-1)/2)]
          rw [if_neg (by omega : k ≠ s.objects.length - 1), if_neg hki,
            if_neg (by omega : (k-1)/2 ≠ s.objects.length - 1), if_neg hpk]
          have he := hinv k hk0 (by omega)
          unfold edgeAt at he
          exact he
        have hP2 : i ≠ 0 → ∀ k, 0 < k → k < s.objects.length - 1 → (k-1)/2 = i →
            cmp (nodeAt (swapGo s i (s.objects.length - 1)).objects k)
              (nodeAt (swapGo s i (s.objects.length - 1)).objects ((i-1)/2)) = false := by
          intro hi0 k hk0 hkn hpk
          rw [hnd k, hnd ((i-1)/2)]
          rw [if_neg (by omega : k ≠ s.objects.length - 1), if_neg (by omega : k ≠ i),
            if_neg (by omega : (i-1)/2 ≠ s.objects.length - 1),
            if_neg (by omega : (i-1)/2 ≠ i)]
          have he1 := hinv k hk0 (by omega)
          unfold edgeAt at he1
          rw [hpk] at he1
          have he2 := hinv i (by omega) (by omega)
          unfold edgeAt at he2
          exact hnt _ _ _ he1 he2
        have hspec := downGo_spec cmp ha hnt (s.objects.length - 1) i
          (swapGo s i (s.objects.length - 1)) i (Nat.le_refl i) (Or.inl hiltn)
          (by rw [swapGo_length]; omega) hP1 hP2 (fun hneq => absurd rfl hneq)
        have hs' : (popGo (if i < (downGo cmp (s.objects.length - 1)
            (swapGo s i (s.objects.length - 1)) i).2 then
              (downGo cmp (s.objects.length - 1) (swapGo s i (s.objects.length - 1)) i).1
            else upGo cmp (downGo cmp (s.objects.length - 1)
              (swapGo s i (s.objects.length - 1)) i).1 i)).1 = s' :=
          congrArg Prod.fst (Except.ok.inj h)
        rw [← hs']
        by_cases hmov : i < (downGo cmp (s.objects.length - 1)
            (swapGo s i (s.objects.length - 1)) i).2
        · rw [if_pos hmov]
          have hlen2 : (downGo cmp (s.objects.length - 1)
              (swapGo s i (s.objects.length - 1)) i).1.objects.length = s.objects.length := by
            rw [downGo_length, swapGo_length]
          unfold heapInv
          rw [popGo_objects, List.length_dropLast, hlen2]
          intro k hk0 hkn
          unfold edgeAt
          rw [nodeAt_dropLast _ _ (by omega), nodeAt_dropLast _ _ (by omega)]
          by_cases hki : k = i
          · subst hki
            have he := hspec.2.1 (by omega) (by omega)
            unfold edgeAt at he
            exact he
          · have he := hspec.1 k hk0 hkn hki
            unfold edgeAt at he
            exact he
        · rw [if_neg hmov]
          have hfin : (downGo cmp (s.objects.length - 1)
              (swapGo s i (s.objects.length - 1)) i).2 = i := by
            have hge := hspec.2.2.2
            omega
          have hid : (downGo cmp (s.objects.length - 1)
              (swapGo s i (s.objects.length - 1)) i).1 =
              swapGo s i (s.objects.length - 1) := hspec.2.2.1 hfin
          rw [hid]
          unfold heapInv
          rw [popGo_objects, List.length_dropLast, upGo_length, swapGo_length]
          have hup := upGo_spec cmp ha hnt (s.objects.length - 1)
            (swapGo s i (s.objects.length - 1)) i hiltn
            (by rw [swapGo_length]; omega) ?_ hP2
          · intro k hk0 hkn
            unfold edgeAt
            have hlup : (upGo cmp (swapGo s i (s.objects.length - 1)) i).objects.length =
                s.objects.length := by
              rw [upGo_length, swapGo_length]
            rw [nodeAt_dropLast _ _ (by rw [hlup]; omega),
              nodeAt_dropLast _ _ (by rw [hlup]; omega)]
            have he := hup k hk0 hkn
            unfold edgeAt at he
            exact he
          · intro k hk0 hkn hki
            have he := hspec.1 k hk0 hkn hki
            rw [hid] at he
            exact he

theorem heapInv_deleteElemGo (cmp : α → α → Bool) (ha : Asymm cmp) (hnt : NegTrans cmp)
    (s s' : GHeap α) (x : α) (b : Bool) (hinv : heapInv cmp s.objects)
    (h : deleteElemGo cmp s x = .ok (s', b)) : heapInv cmp s'.objects := by
  cases hidx : alGet? s.lookup x with
  | none =>
    rw [deleteElemGo_none cmp s x hidx] at h
    have h1 : s = s' := congrArg Prod.fst (Except.ok.inj h)
    rw [← h1]
    exact hinv
  | some idx =>
    rw [deleteElemGo_some cmp s x idx hidx] at h
    cases hrem : coRemoveGo cmp s idx with
    | error e =>
      rw [hrem] at h
      exact absurd h (by simp [Except.map])
    | ok p =>
      rw [hrem] at h
      simp only [Except.map] at h
      have h1 : p.1 = s' := congrArg Prod.fst (Except.ok.inj h)
      rw [← h1]
      exact heapInv_coRemoveGo cmp ha hnt s p.1 idx p.2 hinv hrem

theorem heapInv_stepGo (cmp : α → α → Bool) (ha : Asymm cmp) (hnt : NegTrans cmp)
    (s s1 : GHeap α) (op : HOp α) (hs : heapInv cmp s.objects)
    (h : stepGo cmp s op = .ok s1) : heapInv cmp s1.objects := by
  cases op with
  | put x =>
    simp only [stepGo, Except.ok.injEq] at h
    rw [← h]
    exact heapInv_coPushGo cmp ha hnt s x hs
  | get =>
    simp only [stepGo, getGo] at h
    cases hp : coPopGo cmp s with
    | error e =>
      rw [hp] at h
      exact absurd h (by simp [Except.map])
    | ok p =>
      rw [hp] at h
      simp only [Except.map, Except.ok.injEq] at h
      rw [← h]
      exact heapInv_coPopGo cmp ha hnt s p.1 p.2 hs hp
  | del x =>
    simp only [stepGo] at h
    cases hd : deleteElemGo cmp s x with
    | error e =>
      rw [hd] at h
      exact absurd h (by simp [Except.map])
    | ok p =>
      rw [hd] at h
      simp only [Except.map, Except.ok.injEq] at h
      rw [← h]
      exact heapInv_deleteElemGo cmp ha hnt s p.1 x p.2 hs hd

/-- Claim C5 (confirmed): for every sequence of `Put` (Insert), `Get`
(ExtractTop) and `DeleteElem` (RemoveByIdentity) operations on a freshly
constructed heap whose ordering policy is a strict weak ordering (the `Less`
contract `container/heap` inherits from `sort.Interface`), after every
operation that returns, every non-root element at position `p` does not
precede its parent at `(p-1)/2`. -/
theorem C5_heap_invariant (cmp : α → α → Bool) (ha : Asymm cmp) (hnt : NegTrans cmp)
    (ix : Bool) (ops : List (HOp α)) (s' : GHeap α)
    (h : runGo cmp (emptyGH ix) ops = .ok s') : heapInv cmp s'.objects := by
  have hgen : ∀ (l : List (HOp α)) (s : GHeap α), heapInv cmp s.objects →
      runGo cmp s l = .ok s' → heapInv cmp s'.objects := by
    intro l
    induction l with
    | nil =>
      intro s hs hr
      simp only [runGo, Except.ok.injEq] at hr
      rw [← hr]
      exact hs
    | cons op rest ihm =>
      intro s hs hr
      cases hstep : stepGo cmp s op with
      | error e =>
        rw [runGo, hstep] at hr
        exact absurd hr (by simp)
      | ok s1 =>
        rw [runGo, hstep] at hr
        exact ihm s1 (heapInv_stepGo cmp ha hnt s s1 op hs hstep) hr
  refine hgen ops (emptyGH ix) ?_ h
  intro k hk0 hkn
  simp [emptyGH] at hkn

/-- A concrete strict weak order used by the C5 witness: the usual order on
`Fin 3` identities. -/
def finCmp : Fin 3 → Fin 3 → Bool := fun a b => decide (a < b)

/-- Witness for C5: the invariant holds of the state reached by
`Put 2; Put 0; Put 1; Get` under `finCmp`. -/
theorem C5_heap_invariant_witness :
    heapInv finCmp
      ((⟨[1, 2], [(2, 1), (0, 2), (1, 0)], [(2, 1), (0, 2), (1, 0)], true⟩ :
        GHeap (Fin 3))).objects :=
  C5_heap_invariant finCmp (by unfold Asymm; decide) (by unfold NegTrans; decide)
    true [.put 2, .put 0, .put 1, .get] _
    (by simp [runGo, stepGo, getGo, coPopGo, coPushGo, upGo, downGo, childSel,
      pushGo, popGo, swapGo, lswap, nodeAt, lessGo, alGet?, alSet, emptyGH,
      finCmp, Except.map])

end HeapGo
